import Mathlib

/-!
# Verification of the `AudioAnalyzer` core of UltimateMediaPlayer

Shallow embedding of the real-time audio-analysis engine found in
`src/UMP.py`, class `AudioAnalyzer` (lines 48-105):

* the sample ingest buffer (`process_audio`, and the pop performed at the
  top of `run`),
* the spectral transform (Hann window, real-input FFT, magnitude, power),
* the rotating smoothing history and the published averaged result.

Machine floats are idealised: the `int16 -> float32 / 32768` conversion is
exact in `ℚ`, so buffer contents are modelled as rationals; the spectral
pipeline (cosines, FFT, logarithms) is modelled over `ℝ`/`ℂ` with the
literal `1e-12` standing for the exact value `10⁻¹²`.
-/

namespace UMP

/-- `self.fft_size = 2048` (line 54). -/
def fft_size : ℕ := 2048

/-- `self.history_size = 20` (line 55). -/
def history_size : ℕ := 20

/-- State of one `AudioAnalyzer` instance: the mutable fields assigned in
`__init__` (lines 56-60) that the analysis loop and `process_audio` touch.
`audio_buffer` holds normalised samples (`np.zeros(self.fft_size * 2)`),
`buffer_pos` is the occupancy cursor, `freq_history`/`spec_history` are the
`(history_size, fft_size // 2)` smoothing arrays (modelled as 20 rows of
1024 reals) and `current_pos` the rotating history index. -/
structure Analyzer where
  audio_buffer : List ℚ
  buffer_pos : ℕ
  freq_history : List (List ℝ)
  spec_history : List (List ℝ)
  current_pos : ℕ

/-- The freshly constructed analyzer: zero-filled buffer of capacity
`fft_size * 2 = 4096`, zero-filled histories, cursors at zero. -/
def initState : Analyzer :=
  { audio_buffer := List.replicate (fft_size * 2) 0
    buffer_pos := 0
    freq_history := List.replicate history_size (List.replicate (fft_size / 2) 0)
    spec_history := List.replicate history_size (List.replicate (fft_size / 2) 0)
    current_pos := 0 }

/-- `audio_data.astype(np.float32) / 32768.0` (line 94): exact scaling of a
16-bit sample to a normalised float, which is exact in `ℚ`. -/
def toFloat (x : ℤ) : ℚ := (x : ℚ) / 32768

/-- Injection of the exact rational sample values into `ℝ`, used when a
popped frame enters the (real-valued) spectral pipeline. -/
noncomputable def toReal (q : ℚ) : ℝ := (q : ℝ)

/-- `process_audio` (lines 92-101), the producer-facing push.  The incoming
chunk is given as the decoded `int16` samples; the function scales them,
computes `available_space = len(self.audio_buffer) - self.buffer_pos`
(carried out in `ℤ`, as Python ints), and writes the chunk at the cursor iff
it fits; otherwise the state is untouched.  The Python function body has no
`return` statement, so the call evaluates to `None`: the second component of
the result is that returned value, modelled in `Option Bool` (the type a
`push -> bool` interface would use); it is always `none`. -/
def process_audio (st : Analyzer) (raw : List ℤ) : Analyzer × Option Bool :=
  let audio_data := raw.map toFloat
  let available_space : ℤ := (st.audio_buffer.length : ℤ) - (st.buffer_pos : ℤ)
  if (audio_data.length : ℤ) ≤ available_space then
    ({ st with
        audio_buffer :=
          st.audio_buffer.take st.buffer_pos ++ audio_data ++
            st.audio_buffer.drop (st.buffer_pos + audio_data.length)
        buffer_pos := st.buffer_pos + audio_data.length }, none)
  else
    (st, none)

/-- The frame extraction at the top of the `run` loop body (lines 68-71):
if `self.buffer_pos >= self.fft_size`, copy out
`chunk = self.audio_buffer[:self.fft_size]`, rotate the buffer left by
`fft_size` (`np.roll(self.audio_buffer, -self.fft_size)`) and decrement the
occupancy; otherwise nothing happens this cycle. -/
def pop_frame (st : Analyzer) : Option (List ℚ) × Analyzer :=
  if fft_size ≤ st.buffer_pos then
    (some (st.audio_buffer.take fft_size),
      { st with
          audio_buffer :=
            st.audio_buffer.drop fft_size ++ st.audio_buffer.take fft_size
          buffer_pos := st.buffer_pos - fft_size })
  else
    (none, st)

/-- The queued samples currently held by the buffer, oldest first: the
prefix of `audio_buffer` below the occupancy cursor. -/
def contents (st : Analyzer) : List ℚ := st.audio_buffer.take st.buffer_pos

/-- One producer/consumer interaction with the shared buffer. -/
inductive BufOp where
  | push (raw : List ℤ)
  | pop

/-- Apply one buffer operation (discarding the popped frame and the `None`
returned by `process_audio`). -/
def applyOp (st : Analyzer) : BufOp → Analyzer
  | .push raw => (process_audio st raw).1
  | .pop => (pop_frame st).2

/-- Run an arbitrary finite interleaving of pushes and pops from the
freshly constructed analyzer. -/
def execOps (ops : List BufOp) : Analyzer := ops.foldl applyOp initState

/-- The structural invariant of the shared buffer: its backing array keeps
the construction-time capacity `fft_size * 2` and the occupancy cursor
never leaves `[0, capacity]`. -/
def WF (st : Analyzer) : Prop :=
  st.audio_buffer.length = fft_size * 2 ∧ st.buffer_pos ≤ fft_size * 2

/-! ## The spectral transform (lines 61 and 73-76) -/

/-- `self.window = np.hanning(self.fft_size)` (line 61): the Hann window,
`w[n] = 0.5 - 0.5 * cos(2 * pi * n / (M - 1))` for `M = fft_size` points. -/
noncomputable def window : List ℝ :=
  (List.range fft_size).map fun n : ℕ =>
    1 / 2 - 1 / 2 * Real.cos (2 * Real.pi * (n : ℝ) / ((fft_size : ℝ) - 1))

/-- Elementwise product of two numpy 1-D arrays (`chunk * self.window`,
line 73), with numpy's length-1 broadcasting; numpy raises a `ValueError`
when the two shapes cannot be broadcast together. -/
noncomputable def npMul (a b : List ℝ) : Except String (List ℝ) :=
  if a.length = b.length then .ok (List.zipWith (fun x y => x * y) a b)
  else if a.length = 1 then .ok (b.map (fun y => a.headI * y))
  else if b.length = 1 then .ok (a.map (fun x => x * b.headI))
  else .error "operands could not be broadcast together"

/-- A unit-modulus complex phase factor. -/
noncomputable def cexp (θ : ℝ) : ℂ := Complex.exp (θ * Complex.I)

/-- Bin `k` of `np.fft.rfft(x)` (line 74):
`X[k] = sum over n < len(x) of x[n] * exp(-2 * pi * I * k * n / len(x))`. -/
noncomputable def rfft (x : List ℝ) (k : ℕ) : ℂ :=
  ∑ n ∈ Finset.range x.length,
    (x.getD n 0 : ℂ) * cexp (-(2 * Real.pi * k * n / (x.length : ℝ)))

/-- `magnitude = np.abs(fft) / self.fft_size` (line 75).  `np.fft.rfft` of a
length-`L` input yields `L / 2 + 1` bins, so for a full `fft_size`-sample
frame this array has `fft_size / 2 + 1 = 1025` entries. -/
noncomputable def magnitudeArr (x : List ℝ) : List ℝ :=
  (List.range (x.length / 2 + 1)).map fun k => Complex.abs (rfft x k) / fft_size

/-- `power = 20 * np.log10(magnitude + 1e-12)` (line 76). -/
noncomputable def powerArr (x : List ℝ) : List ℝ :=
  (magnitudeArr x).map fun m => 20 * Real.logb 10 (m + 1e-12)

/-- The immediate (unsmoothed) spectral data of one windowed frame. -/
structure Snapshot where
  magnitude : List ℝ
  power : List ℝ

/-- Magnitude and power arrays of an already windowed frame. -/
noncomputable def snapshotOf (windowed : List ℝ) : Snapshot :=
  { magnitude := magnitudeArr windowed, power := powerArr windowed }

/-- Lines 73-76 as executed by the loop: multiply the popped chunk by the
precomputed window (numpy broadcasting rules apply) and derive the
magnitude and power arrays.  A numpy shape error propagates — the loop body
contains no handler. -/
noncomputable def compute (chunk : List ℝ) : Except String Snapshot :=
  (npMul chunk window).map snapshotOf

/-- The transform of a full `fft_size`-sample frame (the success path of
`compute`: frame and window have equal length, so the product is the plain
elementwise one). -/
noncomputable def frameSnapshot (chunk : List ℝ) : Snapshot :=
  snapshotOf (List.zipWith (fun x y => x * y) chunk window)

/-- An all-zero (silent) frame. -/
def zeroChunk : List ℝ := List.replicate fft_size 0

/-! ## Smoothing history and the published result (lines 56-58 and 78-88) -/

/-- The published output (lines 82-87): `spectrum` and `spectrogram` are
the column means of the two history arrays, `rms` and `peak` come from the
current frame's magnitude array. -/
structure AnalysisResult where
  spectrum : List ℝ
  spectrogram : List ℝ
  rms : ℝ
  peak : ℝ

/-- `np.mean(history, axis=0)` for the `(history_size, fft_size / 2)`
history arrays: the elementwise column mean across all rows. -/
noncomputable def meanAxis0 (hist : List (List ℝ)) : List ℝ :=
  (List.range (fft_size / 2)).map fun j =>
    (hist.map fun row => row.getD j 0).sum / (hist.length : ℝ)

/-- `np.mean(np.square(l))` for a 1-D array. -/
noncomputable def npMean (l : List ℝ) : ℝ := l.sum / (l.length : ℝ)

/-- `np.max(l)` for a (nonempty) 1-D array. -/
noncomputable def npMax (l : List ℝ) : ℝ := l.foldl max l.headI

/-- Lines 78-88, given the spectral data of the popped frame: overwrite the
history rows at the rotating index with the truncated (`fft_size / 2`-long)
magnitude/power arrays, advance the index modulo `history_size`, then build
the published result from the column means of the updated histories plus
`rms = sqrt(mean(square(magnitude)))` and `peak = max(magnitude)` of the
full (untruncated) magnitude array of this frame. -/
noncomputable def analyzeSnap (snap : Snapshot) (st : Analyzer) : Analyzer × AnalysisResult :=
  let freq := st.freq_history.set st.current_pos (snap.magnitude.take (fft_size / 2))
  let spec := st.spec_history.set st.current_pos (snap.power.take (fft_size / 2))
  ({ st with
      freq_history := freq
      spec_history := spec
      current_pos := (st.current_pos + 1) % history_size },
    { spectrum := meanAxis0 freq
      spectrogram := meanAxis0 spec
      rms := Real.sqrt (npMean (snap.magnitude.map fun m => m ^ 2))
      peak := npMax snap.magnitude })

/-- The truncated magnitude row recorded into `freq_history` (line 78). -/
noncomputable def magRow (chunk : List ℝ) : List ℝ :=
  (frameSnapshot chunk).magnitude.take (fft_size / 2)

/-- The truncated power row recorded into `spec_history` (line 79). -/
noncomputable def powRow (chunk : List ℝ) : List ℝ :=
  (frameSnapshot chunk).power.take (fft_size / 2)

/-- The history-state update performed when one full frame is analyzed. -/
noncomputable def histStep (st : Analyzer) (chunk : List ℝ) : Analyzer :=
  (analyzeSnap (frameSnapshot chunk) st).1

/-- Analyze a sequence of full frames in order. -/
noncomputable def histFold (chunks : List (List ℝ)) (st : Analyzer) : Analyzer :=
  chunks.foldl histStep st

/-- The result published while analyzing `chunk` with history state `st`
(the loop publishes after recording, line 88). -/
noncomputable def publishOn (st : Analyzer) (chunk : List ℝ) : AnalysisResult :=
  (analyzeSnap (frameSnapshot chunk) st).2

/-- The slot-overwriting fold shared by both history arrays: write each new
row at the rotating index and advance the index modulo `history_size`. -/
def setFold {α : Type} (rs : List α) (p : List α × ℕ) : List α × ℕ :=
  rs.foldl (fun q r => (q.1.set q.2 r, (q.2 + 1) % history_size)) p

/-- Step index written by the last pass over slot `j` after `n` writes
starting at rotating index 0 (the most recent write to slot `j`). -/
def lastWrite (n j : ℕ) : ℕ := n - 1 - ((n - 1 - j) % history_size)

/-- One iteration of the `run` loop body (lines 67-90): pop a frame when one
is available, transform, record, publish.  The body contains no
`try`/`except`, so a numpy error raised by the transform propagates out of
the loop (terminating the worker thread); the `Except` layer models that
propagation. -/
noncomputable def runBody (st : Analyzer) : Except String (Analyzer × Option AnalysisResult) :=
  if fft_size ≤ st.buffer_pos then
    match compute ((st.audio_buffer.take fft_size).map toReal) with
    | .error e => .error e
    | .ok snap =>
      let st1 := { st with
        audio_buffer := st.audio_buffer.drop fft_size ++ st.audio_buffer.take fft_size
        buffer_pos := st.buffer_pos - fft_size }
      let p := analyzeSnap snap st1
      .ok (p.1, some p.2)
  else .ok (st, none)

/-! ## Lock-held regions of the two threads (lines 67-90 and 96-101) -/

/-- Observable actions of one loop iteration or one push, in program
order. -/
inductive Event where
  | lock
  | copyOut
  | computeFFT
  | recordHistory
  | publish
  | unlock
  | sleep
  | copyIn
  deriving DecidableEq

/-- The sequence of actions of one `run` loop iteration (lines 67-90):
`mutex.lock()`; if a frame is available: copy it out, window+FFT+magnitude
+power, record into the histories, emit the result; `mutex.unlock()`;
`msleep(20)`. -/
def runCycleEvents (st : Analyzer) : List Event :=
  [Event.lock] ++
    (if fft_size ≤ st.buffer_pos then
      [Event.copyOut, Event.computeFFT, Event.recordHistory, Event.publish]
    else []) ++
  [Event.unlock, Event.sleep]

/-- The sequence of actions of one `process_audio` call (lines 96-101):
`mutex.lock()`, copy the chunk in (when it fits), `mutex.unlock()`. -/
def pushEvents (st : Analyzer) (raw : List ℤ) : List Event :=
  [Event.lock] ++
    (if (raw.length : ℤ) ≤ (st.audio_buffer.length : ℤ) - (st.buffer_pos : ℤ) then
      [Event.copyIn]
    else []) ++
  [Event.unlock]

/-- Position of the first occurrence of an event in a trace (the trace
length when absent). -/
def eventIdx (evs : List Event) (e : Event) : ℕ := List.indexOf e evs

/-! ## The RMS of the data-model claim, and a probe frame -/

/-- RMS as the claim's data model words it: `sqrt(mean(magnitude²))` over
the snapshot's *truncated* magnitude array of length `fft_size / 2`.  This
follows the spec's wording and exists to be compared against the code's
computation, which ranges over the full `fft_size / 2 + 1`-bin array. -/
noncomputable def specRms (chunk : List ℝ) : ℝ :=
  Real.sqrt (npMean (((frameSnapshot chunk).magnitude.take (fft_size / 2)).map fun m => m ^ 2))

/-- A probe frame: unit impulses at positions 512 and 1536 (half a frame
apart), silence elsewhere. -/
noncomputable def frame0 : List ℝ :=
  (List.range fft_size).map fun n : ℕ => if n = 512 then 1 else if n = 1536 then 1 else 0

/-- The probe frame after windowing. -/
noncomputable def windowed0 : List ℝ := List.zipWith (fun x y => x * y) frame0 window

/-! ## Basic facts about the ingest-buffer operations -/

theorem process_audio_snd (st : Analyzer) (raw : List ℤ) :
    (process_audio st raw).2 = none := by
  simp only [process_audio]
  split <;> rfl

theorem process_audio_reject (st : Analyzer) (raw : List ℤ)
    (h : ¬ ((raw.length : ℤ) ≤ (st.audio_buffer.length : ℤ) - (st.buffer_pos : ℤ))) :
    (process_audio st raw).1 = st := by
  simp only [process_audio, List.length_map]
  rw [if_neg h]

theorem process_audio_accept (st : Analyzer) (raw : List ℤ)
    (h : (raw.length : ℤ) ≤ (st.audio_buffer.length : ℤ) - (st.buffer_pos : ℤ)) :
    (process_audio st raw).1 =
      { st with
          audio_buffer := st.audio_buffer.take st.buffer_pos ++ raw.map toFloat ++
            st.audio_buffer.drop (st.buffer_pos + raw.length)
          buffer_pos := st.buffer_pos + raw.length } := by
  simp only [process_audio, List.length_map]
  rw [if_pos h]

theorem process_audio_contents (st : Analyzer) (raw : List ℤ)
    (hpos : st.buffer_pos ≤ st.audio_buffer.length)
    (h : (raw.length : ℤ) ≤ (st.audio_buffer.length : ℤ) - (st.buffer_pos : ℤ)) :
    contents (process_audio st raw).1 = contents st ++ raw.map toFloat := by
  rw [process_audio_accept st raw h]
  show (st.audio_buffer.take st.buffer_pos ++ raw.map toFloat ++
      st.audio_buffer.drop (st.buffer_pos + raw.length)).take (st.buffer_pos + raw.length) =
    st.audio_buffer.take st.buffer_pos ++ raw.map toFloat
  rw [List.take_left']
  simp [List.length_take, min_eq_left hpos]

theorem process_audio_length (st : Analyzer) (raw : List ℤ)
    (hpos : st.buffer_pos ≤ st.audio_buffer.length)
    (h : (raw.length : ℤ) ≤ (st.audio_buffer.length : ℤ) - (st.buffer_pos : ℤ)) :
    (process_audio st raw).1.audio_buffer.length = st.audio_buffer.length := by
  rw [process_audio_accept st raw h]
  simp only [List.length_append, List.length_take, List.length_map, List.length_drop]
  omega

theorem pop_frame_none (st : Analyzer) (h : st.buffer_pos < fft_size) :
    pop_frame st = (none, st) := by
  simp only [pop_frame]
  rw [if_neg (by omega)]

theorem pop_frame_some (st : Analyzer) (h : fft_size ≤ st.buffer_pos) :
    pop_frame st =
      (some (st.audio_buffer.take fft_size),
        { st with
            audio_buffer :=
              st.audio_buffer.drop fft_size ++ st.audio_buffer.take fft_size
            buffer_pos := st.buffer_pos - fft_size }) := by
  simp only [pop_frame]
  rw [if_pos h]

theorem pop_frame_frame_eq (st : Analyzer) (h : fft_size ≤ st.buffer_pos) :
    (pop_frame st).1 = some ((contents st).take fft_size) := by
  rw [pop_frame_some st h]
  show some (st.audio_buffer.take fft_size) = some ((st.audio_buffer.take st.buffer_pos).take fft_size)
  rw [List.take_take, min_eq_left h]

theorem pop_frame_contents (st : Analyzer)
    (hpos : st.buffer_pos ≤ st.audio_buffer.length) (h : fft_size ≤ st.buffer_pos) :
    contents (pop_frame st).2 = (contents st).drop fft_size := by
  rw [pop_frame_some st h]
  show (st.audio_buffer.drop fft_size ++ st.audio_buffer.take fft_size).take
      (st.buffer_pos - fft_size) = (st.audio_buffer.take st.buffer_pos).drop fft_size
  rw [List.drop_take, List.take_append_of_le_length]
  simp only [List.length_drop]
  omega

theorem pop_frame_length (st : Analyzer) (hlen : fft_size ≤ st.audio_buffer.length) :
    (pop_frame st).2.audio_buffer.length = st.audio_buffer.length := by
  simp only [pop_frame]
  split
  · simp only [List.length_append, List.length_drop, List.length_take]
    omega
  · rfl

theorem WF_initState : WF initState := by
  constructor <;> simp [initState, WF]

theorem WF_applyOp (st : Analyzer) (op : BufOp) (h : WF st) : WF (applyOp st op) := by
  obtain ⟨h1, h2⟩ := h
  cases op with
  | push raw =>
    by_cases hg : (raw.length : ℤ) ≤ (st.audio_buffer.length : ℤ) - (st.buffer_pos : ℤ)
    · have hpos : st.buffer_pos ≤ st.audio_buffer.length := by omega
      constructor
      · show (process_audio st raw).1.audio_buffer.length = fft_size * 2
        rw [process_audio_length st raw hpos hg, h1]
      · show (process_audio st raw).1.buffer_pos ≤ fft_size * 2
        rw [process_audio_accept st raw hg]
        show st.buffer_pos + raw.length ≤ fft_size * 2
        omega
    · show WF (process_audio st raw).1
      rw [process_audio_reject st raw hg]
      exact ⟨h1, h2⟩
  | pop =>
    by_cases hp : fft_size ≤ st.buffer_pos
    · constructor
      · show (pop_frame st).2.audio_buffer.length = fft_size * 2
        rw [pop_frame_length st (by simp [h1, fft_size]), h1]
      · show (pop_frame st).2.buffer_pos ≤ fft_size * 2
        rw [pop_frame_some st hp]
        show st.buffer_pos - fft_size ≤ fft_size * 2
        omega
    · show WF (pop_frame st).2
      rw [pop_frame_none st (by omega)]
      exact ⟨h1, h2⟩

theorem WF_execOps (ops : List BufOp) : WF (execOps ops) := by
  have main : ∀ l : List BufOp, ∀ st : Analyzer, WF st → WF (l.foldl applyOp st) := by
    intro l
    induction l with
    | nil => intro st h; exact h
    | cons op l ih => intro st h; exact ih _ (WF_applyOp st op h)
  exact main ops initState WF_initState

/-! ## Claim C1 -/

/-- C1, counterexample.  Pushing a 4097-sample chunk into the fresh
analyzer (remaining capacity 4096) drops the whole chunk and leaves the
state untouched, but `process_audio` reports nothing: the Python function
body has no `return`, so the call evaluates to `None` — not to a boolean
failure result as the claim states. -/
theorem C1_counterexample :
    (process_audio initState (List.replicate 4097 0)).1 = initState ∧
    (process_audio initState (List.replicate 4097 0)).2 = none ∧
    (process_audio initState (List.replicate 4097 0)).2 ≠ some false := by
  refine ⟨?_, process_audio_snd _ _, ?_⟩
  · apply process_audio_reject
    simp only [initState, List.length_replicate]
    norm_num [fft_size]
  · rw [process_audio_snd]
    simp

/-- C1, amended.  `process_audio` appends the chunk (converted to floats)
to the queued samples if and only if the remaining capacity is at least the
chunk length; otherwise the whole chunk is dropped and the state is
completely unchanged (never a partial write).  The call is a total function
— the embedding is a total Lean function of the state and chunk — but it
reports nothing: its Python return value is `None`, not a boolean. -/
theorem C1_push_capacity_silent (st : Analyzer) (raw : List ℤ)
    (hpos : st.buffer_pos ≤ st.audio_buffer.length) :
    (raw.length ≤ st.audio_buffer.length - st.buffer_pos →
      contents (process_audio st raw).1 = contents st ++ raw.map toFloat ∧
      (process_audio st raw).1.buffer_pos = st.buffer_pos + raw.length) ∧
    (st.audio_buffer.length - st.buffer_pos < raw.length →
      (process_audio st raw).1 = st) ∧
    (process_audio st raw).2 = none := by
  refine ⟨?_, ?_, process_audio_snd st raw⟩
  · intro hfit
    have hg : (raw.length : ℤ) ≤ (st.audio_buffer.length : ℤ) - (st.buffer_pos : ℤ) := by
      omega
    refine ⟨process_audio_contents st raw hpos hg, ?_⟩
    rw [process_audio_accept st raw hg]
  · intro hbig
    exact process_audio_reject st raw (by omega)

/-- C1 witness: a 3-sample chunk fits into the fresh analyzer. -/
theorem C1_push_capacity_silent_witness :
    initState.buffer_pos ≤ initState.audio_buffer.length ∧
    (((List.replicate 3 (0 : ℤ)).length ≤
        initState.audio_buffer.length - initState.buffer_pos →
      contents (process_audio initState (List.replicate 3 0)).1 =
        contents initState ++ (List.replicate 3 0).map toFloat ∧
      (process_audio initState (List.replicate 3 0)).1.buffer_pos =
        initState.buffer_pos + (List.replicate 3 (0 : ℤ)).length) ∧
    (initState.audio_buffer.length - initState.buffer_pos <
        (List.replicate 3 (0 : ℤ)).length →
      (process_audio initState (List.replicate 3 0)).1 = initState) ∧
    (process_audio initState (List.replicate 3 0)).2 = none) :=
  ⟨by simp [initState], C1_push_capacity_silent initState (List.replicate 3 0)
    (by simp [initState])⟩

/-! ## Claim C2 -/

/-- C2: `pop_frame` returns a frame iff the occupancy is at least
`fft_size`; on success the frame is exactly the oldest `fft_size` queued
samples, those samples are removed (the remaining queued samples are the
rest, in their original relative order) and the occupancy drops by exactly
`fft_size`; on a miss nothing at all changes. -/
theorem C2_pop_frame_spec (st : Analyzer)
    (hpos : st.buffer_pos ≤ st.audio_buffer.length) :
    ((pop_frame st).1.isSome ↔ fft_size ≤ st.buffer_pos) ∧
    (fft_size ≤ st.buffer_pos →
      (pop_frame st).1 = some ((contents st).take fft_size) ∧
      contents (pop_frame st).2 = (contents st).drop fft_size ∧
      (pop_frame st).2.buffer_pos + fft_size = st.buffer_pos) ∧
    (st.buffer_pos < fft_size → pop_frame st = (none, st)) := by
  refine ⟨?_, ?_, fun hlt => pop_frame_none st hlt⟩
  · constructor
    · intro hsome
      by_contra hlt
      rw [pop_frame_none st (by omega)] at hsome
      simp at hsome
    · intro hge
      rw [pop_frame_frame_eq st hge]
      rfl
  · intro hge
    refine ⟨pop_frame_frame_eq st hge, pop_frame_contents st hpos hge, ?_⟩
    rw [pop_frame_some st hge]
    show st.buffer_pos - fft_size + fft_size = st.buffer_pos
    omega

/-- C2 witness: an analyzer holding exactly one full frame of silence. -/
theorem C2_pop_frame_spec_witness :
    ({ initState with buffer_pos := 2048 } : Analyzer).buffer_pos ≤
      ({ initState with buffer_pos := 2048 } : Analyzer).audio_buffer.length ∧
    (((pop_frame { initState with buffer_pos := 2048 }).1.isSome ↔
        fft_size ≤ ({ initState with buffer_pos := 2048 } : Analyzer).buffer_pos) ∧
    (fft_size ≤ ({ initState with buffer_pos := 2048 } : Analyzer).buffer_pos →
      (pop_frame { initState with buffer_pos := 2048 }).1 =
        some ((contents { initState with buffer_pos := 2048 }).take fft_size) ∧
      contents (pop_frame { initState with buffer_pos := 2048 }).2 =
        (contents { initState with buffer_pos := 2048 }).drop fft_size ∧
      (pop_frame { initState with buffer_pos := 2048 }).2.buffer_pos + fft_size =
        ({ initState with buffer_pos := 2048 } : Analyzer).buffer_pos) ∧
    (({ initState with buffer_pos := 2048 } : Analyzer).buffer_pos < fft_size →
      pop_frame { initState with buffer_pos := 2048 } =
        (none, { initState with buffer_pos := 2048 }))) :=
  ⟨by norm_num [initState, fft_size],
    C2_pop_frame_spec { initState with buffer_pos := 2048 }
      (by norm_num [initState, fft_size])⟩

/-! ## Claim C6 -/

/-- C6: the buffer capacity is fixed at construction to `2 * fft_size`;
under every interleaving of pushes and pops from the fresh analyzer the
occupancy stays within `[0, 2 * fft_size]`; an accepted push appends the
chunk to the queue, a rejected push changes nothing, and a pop removes
exactly the oldest `fft_size` queued samples — strict FIFO consumption in
units of exactly one frame. -/
theorem C6_buffer_invariants :
    initState.audio_buffer.length = 2 * fft_size ∧
    (∀ ops : List BufOp,
      (execOps ops).audio_buffer.length = 2 * fft_size ∧
      (execOps ops).buffer_pos ≤ 2 * fft_size) ∧
    (∀ ops : List BufOp, ∀ raw : List ℤ,
      (raw.length ≤ 2 * fft_size - (execOps ops).buffer_pos →
        contents (process_audio (execOps ops) raw).1 =
          contents (execOps ops) ++ raw.map toFloat ∧
        (process_audio (execOps ops) raw).1.buffer_pos =
          (execOps ops).buffer_pos + raw.length) ∧
      (2 * fft_size - (execOps ops).buffer_pos < raw.length →
        (process_audio (execOps ops) raw).1 = execOps ops)) ∧
    (∀ ops : List BufOp,
      fft_size ≤ (execOps ops).buffer_pos →
      (pop_frame (execOps ops)).1 = some ((contents (execOps ops)).take fft_size) ∧
      contents (pop_frame (execOps ops)).2 = (contents (execOps ops)).drop fft_size) := by
  refine ⟨by simp only [initState, List.length_replicate]; exact Nat.mul_comm _ _, ?_, ?_, ?_⟩
  · intro ops
    have h := WF_execOps ops
    exact ⟨h.1.trans (Nat.mul_comm _ _), by have := h.2; omega⟩
  · intro ops raw
    have h := WF_execOps ops
    have hpos : (execOps ops).buffer_pos ≤ (execOps ops).audio_buffer.length := by
      rw [h.1]; exact h.2
    constructor
    · intro hfit
      have hg : (raw.length : ℤ) ≤
          ((execOps ops).audio_buffer.length : ℤ) - ((execOps ops).buffer_pos : ℤ) := by
        have := h.1
        omega
      refine ⟨process_audio_contents _ raw hpos hg, ?_⟩
      rw [process_audio_accept _ raw hg]
    · intro hbig
      apply process_audio_reject
      have := h.1
      omega
  · intro ops hge
    have h := WF_execOps ops
    have hpos : (execOps ops).buffer_pos ≤ (execOps ops).audio_buffer.length := by
      rw [h.1]; exact h.2
    exact ⟨pop_frame_frame_eq _ hge, pop_frame_contents _ hpos hge⟩

/-- C6 witness: after pushing one full frame of silence the occupancy is
within capacity and a pop succeeds, returning the oldest frame. -/
theorem C6_buffer_invariants_witness :
    (execOps [BufOp.push (List.replicate 2048 0)]).buffer_pos ≤ 2 * fft_size ∧
    fft_size ≤ (execOps [BufOp.push (List.replicate 2048 0)]).buffer_pos ∧
    (pop_frame (execOps [BufOp.push (List.replicate 2048 0)])).1 =
      some ((contents (execOps [BufOp.push (List.replicate 2048 0)])).take fft_size) := by
  have hpos : fft_size ≤ (execOps [BufOp.push (List.replicate 2048 0)]).buffer_pos := by
    have hg : ((List.replicate 2048 (0 : ℤ)).length : ℤ) ≤
        (initState.audio_buffer.length : ℤ) - (initState.buffer_pos : ℤ) := by
      simp only [initState, List.length_replicate]
      norm_num [fft_size]
    have hstep : execOps [BufOp.push (List.replicate 2048 0)] =
        (process_audio initState (List.replicate 2048 0)).1 := rfl
    rw [hstep, process_audio_accept _ _ hg]
    show fft_size ≤ initState.buffer_pos + (List.replicate 2048 (0 : ℤ)).length
    simp only [initState, List.length_replicate]
    norm_num [fft_size]
  exact ⟨(C6_buffer_invariants.2.1 _).2, hpos,
    (C6_buffer_invariants.2.2.2 _ hpos).1⟩

/-! ## Claim C8 -/

/-- C8: pushing exactly one frame of samples into the fresh (empty)
analyzer and popping immediately succeeds and returns exactly the pushed
samples after the `int16 -> float / 32768` conversion, element for
element. -/
theorem C8_roundtrip (raw : List ℤ) (hlen : raw.length = fft_size) :
    (pop_frame (process_audio initState raw).1).1 = some (raw.map toFloat) := by
  have hpos : initState.buffer_pos ≤ initState.audio_buffer.length := by simp [initState]
  have hg : (raw.length : ℤ) ≤
      (initState.audio_buffer.length : ℤ) - (initState.buffer_pos : ℤ) := by
    norm_num [initState, hlen, fft_size]
  have h2 : (process_audio initState raw).1.buffer_pos = fft_size := by
    rw [process_audio_accept _ raw hg]
    show initState.buffer_pos + raw.length = fft_size
    simp [initState, hlen]
  rw [pop_frame_frame_eq _ (le_of_eq h2.symm)]
  rw [process_audio_contents initState raw hpos hg]
  have hcontents : contents initState = [] := by simp [contents, initState]
  rw [hcontents, List.nil_append, List.take_of_length_le]
  simp [hlen]

/-! ## The rotating history: generic slot bookkeeping -/

theorem getD_set {α : Type} (l : List α) (i j : ℕ) (a d : α) (hi : i < l.length) :
    (l.set i a).getD j d = if j = i then a else l.getD j d := by
  by_cases h : j = i
  · subst h
    rw [List.getD_eq_getElem?_getD, List.getElem?_set_eq hi]
    simp
  · rw [List.getD_eq_getElem?_getD, List.getElem?_set_ne (fun hc => h hc.symm),
      ← List.getD_eq_getElem?_getD]
    simp [h]

theorem setFold_append {α : Type} (rs₁ rs₂ : List α) (p : List α × ℕ) :
    setFold (rs₁ ++ rs₂) p = setFold rs₂ (setFold rs₁ p) :=
  List.foldl_append _ _ _ _

theorem setFold_length {α : Type} (rs : List α) :
    ∀ p : List α × ℕ, ((setFold rs p).1).length = p.1.length := by
  induction rs with
  | nil => intro p; rfl
  | cons r rs ih =>
    intro p
    have hstep : setFold (r :: rs) p =
        setFold rs (p.1.set p.2 r, (p.2 + 1) % history_size) := rfl
    rw [hstep, ih]
    simp

theorem setFold_pos {α : Type} (rs : List α) :
    ∀ p : List α × ℕ, p.2 < history_size →
      (setFold rs p).2 = (p.2 + rs.length) % history_size := by
  induction rs with
  | nil =>
    intro p hp
    show p.2 = (p.2 + 0) % history_size
    rw [Nat.add_zero, Nat.mod_eq_of_lt hp]
  | cons r rs ih =>
    intro p hp
    have hstep : setFold (r :: rs) p =
        setFold rs (p.1.set p.2 r, (p.2 + 1) % history_size) := rfl
    rw [hstep, ih _ (Nat.mod_lt _ (by norm_num [history_size]))]
    show ((p.2 + 1) % history_size + rs.length) % history_size =
      (p.2 + (r :: rs).length) % history_size
    rw [List.length_cons]
    simp only [history_size]
    omega

/-- Contents of slot `j` after folding the rows `rs` into a
`history_size`-slot history from rotating index 0: the slot holds the most
recently written row (step `lastWrite rs.length j`), or its initial
content if it was never written. -/
theorem setFold_getD {α : Type} (rs : List α) (h₀ : List α) (d : α)
    (hh : h₀.length = history_size) (j : ℕ) (hj : j < history_size) :
    ((setFold rs (h₀, 0)).1).getD j d =
      if j < rs.length then rs.getD (lastWrite rs.length j) d else h₀.getD j d := by
  induction rs using List.reverseRecOn with
  | nil => simp [setFold]
  | append_singleton rs r ih =>
    have hpos : (setFold rs (h₀, 0)).2 = rs.length % history_size := by
      rw [setFold_pos rs (h₀, 0) (by norm_num [history_size])]
      simp
    have hlen : ((setFold rs (h₀, 0)).1).length = history_size := by
      rw [setFold_length]; exact hh
    have hstep : (setFold (rs ++ [r]) (h₀, 0)).1 =
        ((setFold rs (h₀, 0)).1).set ((setFold rs (h₀, 0)).2) r := by
      rw [setFold_append]; rfl
    rw [hstep, hpos, getD_set _ _ _ _ _ (by rw [hlen]; exact Nat.mod_lt _ (by norm_num [history_size]))]
    by_cases hje : j = rs.length % history_size
    · rw [if_pos hje]
      have hjlt : j < (rs ++ [r]).length := by
        rw [List.length_append, List.length_singleton]
        have : j ≤ rs.length := by
          rw [hje]; exact Nat.mod_le _ _
        omega
      rw [if_pos hjlt]
      have hlw : lastWrite (rs ++ [r]).length j = rs.length := by
        rw [List.length_append, List.length_singleton]
        simp only [lastWrite, history_size] at *
        omega
      rw [hlw, List.getD_append_right _ _ _ _ (le_refl rs.length)]
      simp
    · rw [if_neg hje, ih]
      by_cases hjn : j < rs.length
      · rw [if_pos hjn, if_pos (by rw [List.length_append, List.length_singleton]; omega)]
        have hlw : lastWrite (rs ++ [r]).length j = lastWrite rs.length j := by
          rw [List.length_append, List.length_singleton]
          simp only [lastWrite, history_size] at *
          omega
        have hlt : lastWrite rs.length j < rs.length := by
          simp only [lastWrite, history_size] at *
          omega
        rw [hlw, List.getD_append _ _ _ _ hlt]
      · rw [if_neg hjn, if_neg ?_]
        rw [List.length_append, List.length_singleton]
        intro hcon
        have hjeq : j = rs.length := by omega
        apply hje
        rw [hjeq, Nat.mod_eq_of_lt (by omega)]

/-- A slot that was written at most `history_size` steps ago, starting
cold, holds the row of its own step index. -/
theorem lastWrite_small (n j : ℕ) (hn : n ≤ history_size) (hj : j < n) :
    lastWrite n j = j := by
  simp only [lastWrite, history_size] at *
  omega

/-- After at least `history_size` writes, every slot holds one of the last
`history_size` rows, and the slot at the rotating index holds the oldest
one. -/
theorem lastWrite_bounds (n j : ℕ) (hn : history_size ≤ n) (hj : j < history_size) :
    n - history_size ≤ lastWrite n j ∧ lastWrite n j < n := by
  simp only [lastWrite, history_size] at *
  omega

theorem lastWrite_at_pos (n : ℕ) (hn : history_size ≤ n) :
    lastWrite n (n % history_size) = n - history_size := by
  simp only [lastWrite, history_size] at *
  omega

/-! ## Projecting the analyzer loop onto the slot fold -/

theorem getD_map_of_lt {β γ : Type} (l : List β) (f : β → γ) (i : ℕ)
    (h : i < l.length) (d : γ) (d2 : β) : (l.map f).getD i d = f (l.getD i d2) := by
  rw [List.getD_eq_getElem?_getD, List.getElem?_map, List.getElem?_eq_getElem h,
    List.getD_eq_getElem?_getD, List.getElem?_eq_getElem h]
  rfl

theorem sum_map_getD {β : Type} (l : List β) (g : β → ℝ) (d : β) :
    (l.map g).sum = ∑ i ∈ Finset.range l.length, g (l.getD i d) := by
  induction l with
  | nil => simp
  | cons x xs ih =>
    rw [List.map_cons, List.sum_cons, ih, List.length_cons, Finset.sum_range_succ']
    simp [add_comm]

theorem meanAxis0_getD (hist : List (List ℝ)) (j : ℕ) (hj : j < fft_size / 2) :
    (meanAxis0 hist).getD j 0 =
      (∑ i ∈ Finset.range hist.length, (hist.getD i []).getD j 0) / (hist.length : ℝ) := by
  have h1 : (meanAxis0 hist).getD j 0 =
      (hist.map fun row => row.getD j 0).sum / (hist.length : ℝ) := by
    rw [meanAxis0, getD_map_of_lt (List.range (fft_size / 2)) _ j (by simpa using hj) 0 0,
      List.getD_eq_getElem?_getD, List.getElem?_range hj]
    rfl
  rw [h1, sum_map_getD hist _ []]

theorem histFold_proj (chunks : List (List ℝ)) :
    ∀ st : Analyzer,
      (histFold chunks st).freq_history =
        (setFold (chunks.map magRow) (st.freq_history, st.current_pos)).1 ∧
      (histFold chunks st).spec_history =
        (setFold (chunks.map powRow) (st.spec_history, st.current_pos)).1 ∧
      (histFold chunks st).current_pos =
        (setFold (chunks.map magRow) (st.freq_history, st.current_pos)).2 := by
  induction chunks with
  | nil => intro st; exact ⟨rfl, rfl, rfl⟩
  | cons c cs ih =>
    intro st
    have h := ih (histStep st c)
    exact ⟨h.1, h.2.1, h.2.2⟩

/-! ## Facts about the spectral transform -/

theorem window_length : window.length = fft_size := by
  rw [window, List.length_map, List.length_range]

theorem initState_freq_length : initState.freq_history.length = history_size := by
  simp only [initState, List.length_replicate]

theorem initState_spec_length : initState.spec_history.length = history_size := by
  simp only [initState, List.length_replicate]

theorem analyzeSnap_spectrum (snap : Snapshot) (st : Analyzer) :
    (analyzeSnap snap st).2.spectrum = meanAxis0 ((analyzeSnap snap st).1.freq_history) := by
  simp only [analyzeSnap]

theorem analyzeSnap_spectrogram (snap : Snapshot) (st : Analyzer) :
    (analyzeSnap snap st).2.spectrogram = meanAxis0 ((analyzeSnap snap st).1.spec_history) := by
  simp only [analyzeSnap]

theorem compute_ok (chunk : List ℝ) (h : chunk.length = fft_size) :
    compute chunk = .ok (frameSnapshot chunk) := by
  rw [compute, npMul, if_pos (by rw [h, window_length])]
  rfl

theorem getD_take_of_lt (l : List ℝ) (k j : ℕ) (h : j < k) :
    (l.take k).getD j 0 = l.getD j 0 := by
  rw [List.getD_eq_getElem?_getD, List.getElem?_take_of_lt h, ← List.getD_eq_getElem?_getD]

theorem getD_replicate_of_lt {α : Type} (m j : ℕ) (a d : α) (h : j < m) :
    (List.replicate m a).getD j d = a := by
  rw [List.getD_eq_getElem?_getD, List.getElem?_replicate]
  simp [h]

theorem getD_replicate_zero (m j : ℕ) : (List.replicate m (0 : ℝ)).getD j 0 = 0 := by
  by_cases h : j < m
  · exact getD_replicate_of_lt m j 0 0 h
  · exact List.getD_eq_default _ _ (by simp only [List.length_replicate]; omega)

theorem magnitudeArr_length (x : List ℝ) : (magnitudeArr x).length = x.length / 2 + 1 := by
  simp [magnitudeArr]

theorem powerArr_length (x : List ℝ) : (powerArr x).length = x.length / 2 + 1 := by
  simp [powerArr, magnitudeArr_length]

theorem magnitudeArr_getD (x : List ℝ) (k : ℕ) (hk : k < x.length / 2 + 1) :
    (magnitudeArr x).getD k 0 = Complex.abs (rfft x k) / fft_size := by
  rw [magnitudeArr, getD_map_of_lt (List.range (x.length / 2 + 1)) _ k (by simpa using hk) 0 0,
    List.getD_eq_getElem?_getD, List.getElem?_range hk]
  rfl

theorem powerArr_getD (x : List ℝ) (k : ℕ) (hk : k < x.length / 2 + 1) :
    (powerArr x).getD k 0 = 20 * Real.logb 10 ((magnitudeArr x).getD k 0 + 1e-12) := by
  rw [powerArr, getD_map_of_lt (magnitudeArr x) _ k (by rw [magnitudeArr_length]; exact hk) 0 0]

theorem zipWith_mul_zero_getD (b : List ℝ) (m n : ℕ) :
    (List.zipWith (fun x y => x * y) (List.replicate m 0) b).getD n 0 = 0 := by
  by_cases h : n < (List.zipWith (fun x y => x * y) (List.replicate m (0 : ℝ)) b).length
  · have hm : n < m := by simp [List.length_zipWith] at h; omega
    have hb : n < b.length := by simp [List.length_zipWith] at h; omega
    rw [List.getD_eq_getElem?_getD, List.getElem?_zipWith',
      List.getElem?_eq_getElem (by simpa using hm), List.getElem?_eq_getElem hb]
    simp
  · rw [List.getD_eq_default _ _ (by omega)]

theorem rfft_zero (x : List ℝ) (hx : ∀ n, x.getD n 0 = 0) (k : ℕ) : rfft x k = 0 := by
  rw [rfft]
  apply Finset.sum_eq_zero
  intro n _
  rw [hx n]
  simp

theorem frameSnapshot_zero_power (k : ℕ) (hk : k < fft_size / 2 + 1) :
    (frameSnapshot zeroChunk).power.getD k 0 = 20 * Real.logb 10 (1e-12 : ℝ) := by
  simp only [frameSnapshot, snapshotOf, zeroChunk]
  have hwlen :
      (List.zipWith (fun x y => x * y) (List.replicate fft_size (0 : ℝ)) window).length
        = fft_size := by
    rw [List.length_zipWith, List.length_replicate, window_length, min_self]
  rw [powerArr_getD _ k (by rw [hwlen]; exact hk),
    magnitudeArr_getD _ k (by rw [hwlen]; exact hk),
    rfft_zero _ (fun n => zipWith_mul_zero_getD window fft_size n) k]
  simp

theorem logb_floor : 20 * Real.logb 10 ((1e-12 : ℝ)) = -240 := by
  have h : Real.logb 10 ((1e-12 : ℝ)) = -12 := by
    have he : (1e-12 : ℝ) = ((10 : ℝ)) ^ (-12 : ℤ) := by norm_num
    rw [he, Real.logb, Real.log_zpow, mul_div_assoc,
      div_self (ne_of_gt (Real.log_pos (by norm_num)))]
    norm_num
  rw [h]
  norm_num

theorem initRows_zero : ∀ i j : ℕ,
    ((List.replicate history_size (List.replicate (fft_size / 2) (0 : ℝ))).getD i []).getD j 0
      = 0 := by
  intro i j
  by_cases h : i < history_size
  · rw [getD_replicate_of_lt _ _ _ _ h]
    exact getD_replicate_zero _ _
  · have hle :
        (List.replicate history_size (List.replicate (fft_size / 2) (0 : ℝ))).length ≤ i := by
      simp only [List.length_replicate]
      omega
    rw [List.getD_eq_default _ _ hle]
    rfl

/-- Cold-start column mean: with at most `history_size` rows folded into an
all-zero history, the column mean is the sum of the recorded rows divided
by the full depth. -/
theorem cold_start_mean (rowOf : List ℝ → List ℝ) (h₀ : List (List ℝ))
    (hh : h₀.length = history_size)
    (hzero : ∀ i j : ℕ, (h₀.getD i []).getD j 0 = 0)
    (cs : List (List ℝ)) (hk : cs.length ≤ history_size) (j : ℕ) (hj : j < fft_size / 2) :
    (meanAxis0 ((setFold (cs.map rowOf) (h₀, 0)).1)).getD j 0 =
      (∑ m ∈ Finset.range cs.length, (rowOf (cs.getD m [])).getD j 0) / (history_size : ℝ) := by
  have hlen : ((setFold (cs.map rowOf) (h₀, 0)).1).length = history_size := by
    rw [setFold_length]; exact hh
  rw [meanAxis0_getD _ j hj, hlen]
  congr 1
  have hslot : ∀ i ∈ Finset.range history_size,
      ((setFold (cs.map rowOf) (h₀, 0)).1.getD i []).getD j 0 =
        if i < cs.length then (rowOf (cs.getD i [])).getD j 0 else 0 := by
    intro i hi
    rw [Finset.mem_range] at hi
    have h1 := setFold_getD (cs.map rowOf) h₀ [] hh i hi
    rw [List.length_map] at h1
    by_cases hic : i < cs.length
    · rw [if_pos hic] at h1
      rw [h1, if_pos hic, lastWrite_small cs.length i hk hic,
        getD_map_of_lt cs rowOf i hic [] []]
    · rw [if_neg hic] at h1
      rw [h1, if_neg hic, hzero i j]
  rw [Finset.sum_congr rfl hslot, Finset.range_eq_Ico,
    ← Finset.sum_Ico_consecutive _ (Nat.zero_le cs.length) hk]
  have h2 : ∑ i ∈ Finset.Ico cs.length history_size,
      (if i < cs.length then (rowOf (cs.getD i [])).getD j 0 else 0) = 0 := by
    apply Finset.sum_eq_zero
    intro i hi
    rw [Finset.mem_Ico] at hi
    rw [if_neg (by omega)]
  rw [h2, add_zero]
  apply Finset.sum_congr rfl
  intro i hi
  rw [Finset.mem_Ico] at hi
  rw [if_pos (by omega)]

/-- The published averaged power after at least `history_size` all-zero
frames: every slot holds the silent power row, so the mean is the floor. -/
theorem silence_publish (n : ℕ) (hn : history_size ≤ n + 1) (j : ℕ) (hj : j < fft_size / 2) :
    (publishOn (histFold (List.replicate n zeroChunk) initState) zeroChunk).spectrogram.getD j 0
      = 20 * Real.logb 10 (1e-12 : ℝ) := by
  have hfold : histFold (List.replicate n zeroChunk ++ [zeroChunk]) initState =
      histStep (histFold (List.replicate n zeroChunk) initState) zeroChunk := by
    rw [histFold, histFold, List.foldl_append]
    rfl
  have hpub :
      (publishOn (histFold (List.replicate n zeroChunk) initState) zeroChunk).spectrogram =
        meanAxis0 ((histFold (List.replicate n zeroChunk ++ [zeroChunk]) initState).spec_history)
      := by
    rw [hfold]
    exact analyzeSnap_spectrogram _ _
  have hp := histFold_proj (List.replicate n zeroChunk ++ [zeroChunk]) initState
  have hcp : initState.current_pos = 0 := rfl
  rw [hcp] at hp
  have hrw : (List.replicate n zeroChunk ++ [zeroChunk]).map powRow =
      List.replicate (n + 1) (powRow zeroChunk) := by
    rw [← List.replicate_succ', List.map_replicate]
  rw [hpub, hp.2.1, hrw]
  have hlen : ((setFold (List.replicate (n + 1) (powRow zeroChunk))
      (initState.spec_history, 0)).1).length = history_size := by
    rw [setFold_length]
    exact initState_spec_length
  rw [meanAxis0_getD _ j hj, hlen]
  have hslot : ∀ i ∈ Finset.range history_size,
      ((setFold (List.replicate (n + 1) (powRow zeroChunk))
          (initState.spec_history, 0)).1.getD i []).getD j 0 =
        20 * Real.logb 10 (1e-12 : ℝ) := by
    intro i hi
    rw [Finset.mem_range] at hi
    have h1 := setFold_getD (List.replicate (n + 1) (powRow zeroChunk))
      initState.spec_history [] initState_spec_length i hi
    rw [List.length_replicate] at h1
    rw [if_pos (by omega)] at h1
    have hb := lastWrite_bounds (n + 1) i hn hi
    rw [h1, getD_replicate_of_lt _ _ _ _ hb.2, powRow, getD_take_of_lt _ _ _ hj,
      frameSnapshot_zero_power j (Nat.lt_succ_of_lt hj)]
  rw [Finset.sum_congr rfl hslot, Finset.sum_const, Finset.card_range, nsmul_eq_mul,
    mul_div_cancel_left₀ _ (by norm_num [history_size] : (history_size : ℝ) ≠ 0)]

/-! ## Claim C3 -/

/-- C3: for a full frame the transform is: Hann window elementwise, then
the real-input DFT, then `magnitude = |bin| / fft_size` and
`power = 20 * log10(magnitude + 1e-12)`; for the all-zero frame every power
value is exactly the finite floor `20 * log10(1e-12) = -240` dB, and after
at least `history_size` cycles of silence the published averaged power is
exactly that floor at every bin. -/
theorem C3_transform_silence_floor :
    (∀ chunk : List ℝ, chunk.length = fft_size →
      compute chunk = .ok (frameSnapshot chunk) ∧
      (∀ k : ℕ, k < fft_size / 2 + 1 →
        (frameSnapshot chunk).magnitude.getD k 0 =
          Complex.abs (rfft (List.zipWith (fun x y => x * y) chunk window) k) / fft_size ∧
        (frameSnapshot chunk).power.getD k 0 =
          20 * Real.logb 10 ((frameSnapshot chunk).magnitude.getD k 0 + 1e-12))) ∧
    (∀ k : ℕ, k < fft_size / 2 + 1 →
      (frameSnapshot zeroChunk).power.getD k 0 = 20 * Real.logb 10 (1e-12 : ℝ)) ∧
    20 * Real.logb 10 ((1e-12 : ℝ)) = -240 ∧
    (∀ n : ℕ, history_size ≤ n + 1 → ∀ j : ℕ, j < fft_size / 2 →
      (publishOn (histFold (List.replicate n zeroChunk) initState)
          zeroChunk).spectrogram.getD j 0 =
        20 * Real.logb 10 (1e-12 : ℝ)) := by
  refine ⟨?_, frameSnapshot_zero_power, logb_floor, silence_publish⟩
  intro chunk hlen
  have hwlen : (List.zipWith (fun x y => x * y) chunk window).length = fft_size := by
    simp [List.length_zipWith, hlen, window_length]
  refine ⟨compute_ok chunk hlen, ?_⟩
  intro k hk
  constructor
  · show (magnitudeArr _).getD k 0 = _
    rw [magnitudeArr_getD _ k (by rw [hwlen]; exact hk)]
  · show (powerArr _).getD k 0 = _
    rw [powerArr_getD _ k (by rw [hwlen]; exact hk)]
    rfl

/-- C3 witness: one silent frame, bin 0, and a full history of silence. -/
theorem C3_transform_silence_floor_witness :
    zeroChunk.length = fft_size ∧ history_size ≤ 19 + 1 ∧ (0 : ℕ) < fft_size / 2 ∧
    compute zeroChunk = .ok (frameSnapshot zeroChunk) ∧
    (publishOn (histFold (List.replicate 19 zeroChunk) initState)
        zeroChunk).spectrogram.getD 0 0 = 20 * Real.logb 10 (1e-12 : ℝ) :=
  ⟨by simp [zeroChunk], by norm_num [history_size], by norm_num [fft_size],
    (C3_transform_silence_floor.1 zeroChunk (by simp [zeroChunk])).1,
    C3_transform_silence_floor.2.2.2 19 (by norm_num [history_size]) 0
      (by norm_num [fft_size])⟩

/-! ## Claim C4 -/

/-- C4: the published `spectrum`/`spectrogram` are the elementwise mean
over all `history_size` slots including the still-zero ones — after `k`
recorded frames (`k ≤ history_size`) each value is the sum of the `k`
recorded rows divided by the full depth `history_size`; `rms` and `peak`
come from the most recent frame only. -/
theorem C4_cold_start_average (chunks : List (List ℝ)) (c : List ℝ)
    (hk : chunks.length + 1 ≤ history_size) :
    (∀ j : ℕ, j < fft_size / 2 →
      (publishOn (histFold chunks initState) c).spectrum.getD j 0 =
        (∑ m ∈ Finset.range (chunks.length + 1),
          (magRow ((chunks ++ [c]).getD m [])).getD j 0) / (history_size : ℝ) ∧
      (publishOn (histFold chunks initState) c).spectrogram.getD j 0 =
        (∑ m ∈ Finset.range (chunks.length + 1),
          (powRow ((chunks ++ [c]).getD m [])).getD j 0) / (history_size : ℝ)) ∧
    (publishOn (histFold chunks initState) c).rms =
      Real.sqrt (npMean ((frameSnapshot c).magnitude.map fun m => m ^ 2)) ∧
    (publishOn (histFold chunks initState) c).peak = npMax (frameSnapshot c).magnitude := by
  refine ⟨?_, rfl, rfl⟩
  intro j hj
  have hfold : histFold (chunks ++ [c]) initState =
      histStep (histFold chunks initState) c := by
    rw [histFold, histFold, List.foldl_append]
    rfl
  have hp := histFold_proj (chunks ++ [c]) initState
  have hcp : initState.current_pos = 0 := rfl
  rw [hcp] at hp
  have hlen2 : (chunks ++ [c]).length = chunks.length + 1 := by simp
  constructor
  · have hpub : (publishOn (histFold chunks initState) c).spectrum =
        meanAxis0 ((histFold (chunks ++ [c]) initState).freq_history) := by
      rw [hfold]
      exact analyzeSnap_spectrum _ _
    rw [hpub, hp.1, cold_start_mean magRow initState.freq_history initState_freq_length
      initRows_zero (chunks ++ [c]) (by rw [hlen2]; exact hk) j hj, hlen2]
  · have hpub : (publishOn (histFold chunks initState) c).spectrogram =
        meanAxis0 ((histFold (chunks ++ [c]) initState).spec_history) := by
      rw [hfold]
      exact analyzeSnap_spectrogram _ _
    rw [hpub, hp.2.1, cold_start_mean powRow initState.spec_history initState_spec_length
      initRows_zero (chunks ++ [c]) (by rw [hlen2]; exact hk) j hj, hlen2]

/-- C4 witness: the very first recorded frame. -/
theorem C4_cold_start_average_witness :
    ([] : List (List ℝ)).length + 1 ≤ history_size ∧ (0 : ℕ) < fft_size / 2 ∧
    (publishOn (histFold [] initState) zeroChunk).spectrum.getD 0 0 =
      (∑ m ∈ Finset.range (([] : List (List ℝ)).length + 1),
        (magRow ((([] : List (List ℝ)) ++ [zeroChunk]).getD m [])).getD 0 0) /
        (history_size : ℝ) ∧
    (publishOn (histFold [] initState) zeroChunk).rms =
      Real.sqrt (npMean ((frameSnapshot zeroChunk).magnitude.map fun m => m ^ 2)) :=
  ⟨by norm_num [history_size], by norm_num [fft_size],
    ((C4_cold_start_average [] zeroChunk (by norm_num [history_size])).1 0
      (by norm_num [fft_size])).1,
    (C4_cold_start_average [] zeroChunk (by norm_num [history_size])).2.1⟩

/-! ## Claim C7 -/

/-- C7: one record overwrites both history rows at the current rotating
index and advances the index modulo `history_size`; over any run of records
the histories keep exactly `history_size` rows and the index stays below
`history_size`; once at least `history_size` frames have been recorded,
every slot holds one of the last `history_size` rows and the slot at the
current index — the one the next record will overwrite — holds the oldest
stored row. -/
theorem C7_history_rotation :
    (∀ st : Analyzer, ∀ snap : Snapshot,
      (analyzeSnap snap st).1.freq_history =
        st.freq_history.set st.current_pos (snap.magnitude.take (fft_size / 2)) ∧
      (analyzeSnap snap st).1.spec_history =
        st.spec_history.set st.current_pos (snap.power.take (fft_size / 2)) ∧
      (analyzeSnap snap st).1.current_pos = (st.current_pos + 1) % history_size) ∧
    (∀ chunks : List (List ℝ),
      (histFold chunks initState).freq_history.length = history_size ∧
      (histFold chunks initState).spec_history.length = history_size ∧
      (histFold chunks initState).current_pos < history_size) ∧
    (∀ chunks : List (List ℝ), history_size ≤ chunks.length →
      ∀ j : ℕ, j < history_size →
        ((histFold chunks initState).freq_history.getD j [] =
            magRow (chunks.getD (lastWrite chunks.length j) []) ∧
          chunks.length - history_size ≤ lastWrite chunks.length j ∧
          lastWrite chunks.length j < chunks.length) ∧
        lastWrite chunks.length ((histFold chunks initState).current_pos) =
          chunks.length - history_size) := by
  refine ⟨fun st snap => ⟨rfl, rfl, rfl⟩, ?_, ?_⟩
  · intro chunks
    have hp := histFold_proj chunks initState
    have hcp : initState.current_pos = 0 := rfl
    rw [hcp] at hp
    refine ⟨?_, ?_, ?_⟩
    · rw [hp.1, setFold_length]
      exact initState_freq_length
    · rw [hp.2.1, setFold_length]
      exact initState_spec_length
    · rw [hp.2.2, setFold_pos _ _ (by norm_num [history_size])]
      exact Nat.mod_lt _ (by norm_num [history_size])
  · intro chunks hn j hj
    have hp := histFold_proj chunks initState
    have hcp : initState.current_pos = 0 := rfl
    rw [hcp] at hp
    have hslot := setFold_getD (chunks.map magRow) initState.freq_history []
      initState_freq_length j hj
    rw [List.length_map] at hslot
    rw [if_pos (by omega)] at hslot
    have hb := lastWrite_bounds chunks.length j hn hj
    have hposval : (histFold chunks initState).current_pos =
        chunks.length % history_size := by
      rw [hp.2.2, setFold_pos _ _ (by norm_num [history_size]), List.length_map]
      simp
    refine ⟨⟨?_, hb.1, hb.2⟩, ?_⟩
    · rw [hp.1, hslot, getD_map_of_lt chunks magRow _ hb.2 [] []]
    · rw [hposval, lastWrite_at_pos chunks.length hn]

/-- C7 witness: twenty-one silent frames — the history is full and the
next record will overwrite the oldest row. -/
theorem C7_history_rotation_witness :
    history_size ≤ (List.replicate 21 zeroChunk).length ∧ (0 : ℕ) < history_size ∧
    ((histFold (List.replicate 21 zeroChunk) initState).freq_history.getD 0 [] =
        magRow ((List.replicate 21 zeroChunk).getD
          (lastWrite (List.replicate 21 zeroChunk).length 0) []) ∧
      (List.replicate 21 zeroChunk).length - history_size ≤
        lastWrite (List.replicate 21 zeroChunk).length 0 ∧
      lastWrite (List.replicate 21 zeroChunk).length 0 <
        (List.replicate 21 zeroChunk).length) ∧
    lastWrite (List.replicate 21 zeroChunk).length
        ((histFold (List.replicate 21 zeroChunk) initState).current_pos) =
      (List.replicate 21 zeroChunk).length - history_size :=
  ⟨by simp [history_size], by norm_num [history_size],
    (C7_history_rotation.2.2 (List.replicate 21 zeroChunk) (by simp [history_size]) 0
      (by norm_num [history_size])).1,
    (C7_history_rotation.2.2 (List.replicate 21 zeroChunk) (by simp [history_size]) 0
      (by norm_num [history_size])).2⟩

/-- C8 witness: round trip of one frame of silence. -/
theorem C8_roundtrip_witness :
    (List.replicate 2048 (0 : ℤ)).length = fft_size ∧
    (pop_frame (process_audio initState (List.replicate 2048 0)).1).1 =
      some ((List.replicate 2048 (0 : ℤ)).map toFloat) :=
  ⟨by simp only [List.length_replicate, fft_size],
    C8_roundtrip (List.replicate 2048 0) (by simp only [List.length_replicate, fft_size])⟩

/-! ## Claim C5 -/

/-- C5, counterexample.  The loop body has no `try`/`except`: in a state
whose frame slice is malformed (a 1000-sample backing array with the
occupancy cursor claiming a full frame), the windowing step raises numpy's
broadcast `ValueError` and the error propagates out of the loop body —
nothing catches it, no diagnostic is surfaced, and the worker thread dies. -/
theorem C5_counterexample :
    runBody { initState with audio_buffer := List.replicate 1000 0, buffer_pos := 2048 } =
      .error "operands could not be broadcast together" := by
  rw [runBody, if_pos (by norm_num [fft_size])]
  have hchunk : (({ initState with audio_buffer := List.replicate 1000 0, buffer_pos := 2048 }
        : Analyzer).audio_buffer.take fft_size) = List.replicate 1000 (0 : ℚ) := by
    show (List.replicate 1000 (0 : ℚ)).take fft_size = List.replicate 1000 (0 : ℚ)
    apply List.take_of_length_le
    simp only [List.length_replicate, fft_size]
    norm_num
  rw [hchunk]
  have h1 : ¬ ((List.map toReal (List.replicate 1000 (0 : ℚ))).length = window.length) := by
    simp only [List.length_map, List.length_replicate, window_length, fft_size]
    norm_num
  have h2 : ¬ ((List.map toReal (List.replicate 1000 (0 : ℚ))).length = 1) := by
    simp only [List.length_map, List.length_replicate]
    norm_num
  have h3 : ¬ (window.length = 1) := by
    rw [window_length]
    norm_num [fft_size]
  have hcomp : compute ((List.replicate 1000 (0 : ℚ)).map toReal) =
      .error "operands could not be broadcast together" := by
    rw [compute, npMul, if_neg h1, if_neg h2, if_neg h3]
    rfl
  rw [hcomp]

/-- C5, amended.  The worker loop contains no error handler, so a raised
numpy error would kill the thread (see the counterexample); but on every
reachable state — the buffer invariant `WF` holds initially and is
preserved by both the producer push and the loop body — the popped frame
has exactly `fft_size` samples, the transform cannot raise, and the loop
body always returns normally: in the program as written a frame can never
terminate the worker. -/
theorem C5_worker_total_on_reachable :
    WF initState ∧
    (∀ st : Analyzer, WF st →
      (∀ raw : List ℤ, WF (process_audio st raw).1) ∧
      ∃ p : Analyzer × Option AnalysisResult, runBody st = .ok p ∧ WF p.1) := by
  refine ⟨WF_initState, ?_⟩
  intro st h
  constructor
  · intro raw
    exact WF_applyOp st (BufOp.push raw) h
  · by_cases hp : fft_size ≤ st.buffer_pos
    · have hlen : ((st.audio_buffer.take fft_size).map toReal).length = fft_size := by
        rw [List.length_map, List.length_take, h.1]
        omega
      rw [runBody, if_pos hp, compute_ok _ hlen]
      refine ⟨_, rfl, ?_, ?_⟩
      · show (st.audio_buffer.drop fft_size ++ st.audio_buffer.take fft_size).length
            = fft_size * 2
        rw [List.length_append, List.length_drop, List.length_take, h.1]
        omega
      · show st.buffer_pos - fft_size ≤ fft_size * 2
        have := h.2
        omega
    · rw [runBody, if_neg hp]
      exact ⟨(st, none), rfl, h⟩

/-- C5 witness: the fresh analyzer is reachable and its loop body returns
normally. -/
theorem C5_worker_total_on_reachable_witness :
    WF initState ∧
    (∀ raw : List ℤ, WF (process_audio initState raw).1) ∧
    ∃ p : Analyzer × Option AnalysisResult, runBody initState = .ok p ∧ WF p.1 :=
  ⟨C5_worker_total_on_reachable.1,
    (C5_worker_total_on_reachable.2 initState C5_worker_total_on_reachable.1).1,
    (C5_worker_total_on_reachable.2 initState C5_worker_total_on_reachable.1).2⟩

/-! ## Claim C10 -/

/-- C10, counterexample.  In a cycle that processes a frame, the mutex is
released only *after* the FFT, the history record and the publication: the
`unlock` action does not precede `computeFFT` in the loop body's trace, so
the lock is not "held only for the copy-out duration". -/
theorem C10_counterexample :
    runCycleEvents { initState with buffer_pos := 2048 } =
      [Event.lock, Event.copyOut, Event.computeFFT, Event.recordHistory,
        Event.publish, Event.unlock, Event.sleep] ∧
    ¬ (eventIdx (runCycleEvents { initState with buffer_pos := 2048 }) Event.unlock <
        eventIdx (runCycleEvents { initState with buffer_pos := 2048 }) Event.computeFFT) := by
  constructor
  · rw [runCycleEvents, if_pos (by norm_num [fft_size])]
    rfl
  · rw [runCycleEvents, if_pos (by norm_num [fft_size])]
    decide

/-- C10, amended.  The consumer holds the lock for the whole loop
iteration: when a frame is processed, the FFT, the history record and the
publication all happen strictly before the `unlock`, so a concurrent push
can be blocked by analysis work.  Only the producer side of the claim
holds: `process_audio` locks, copies the chunk in (when it fits) and
unlocks immediately, doing nothing else under the lock. -/
theorem C10_lock_held_through_analysis (st : Analyzer) (raw : List ℤ) :
    (fft_size ≤ st.buffer_pos →
      runCycleEvents st = [Event.lock, Event.copyOut, Event.computeFFT,
        Event.recordHistory, Event.publish, Event.unlock, Event.sleep] ∧
      eventIdx (runCycleEvents st) Event.computeFFT <
        eventIdx (runCycleEvents st) Event.unlock ∧
      eventIdx (runCycleEvents st) Event.recordHistory <
        eventIdx (runCycleEvents st) Event.unlock ∧
      eventIdx (runCycleEvents st) Event.publish <
        eventIdx (runCycleEvents st) Event.unlock) ∧
    (st.buffer_pos < fft_size →
      runCycleEvents st = [Event.lock, Event.unlock, Event.sleep]) ∧
    ((pushEvents st raw).head? = some Event.lock ∧
      (pushEvents st raw).getLast? = some Event.unlock ∧
      (pushEvents st raw).length ≤ 3 ∧
      Event.computeFFT ∉ pushEvents st raw ∧
      Event.publish ∉ pushEvents st raw) := by
  refine ⟨?_, ?_, ?_⟩
  · intro hp
    have htr : runCycleEvents st = [Event.lock, Event.copyOut, Event.computeFFT,
        Event.recordHistory, Event.publish, Event.unlock, Event.sleep] := by
      rw [runCycleEvents, if_pos hp]
      rfl
    rw [htr]
    refine ⟨rfl, ?_, ?_, ?_⟩ <;> decide
  · intro hp
    rw [runCycleEvents, if_neg (by omega)]
    rfl
  · by_cases hg : (raw.length : ℤ) ≤ (st.audio_buffer.length : ℤ) - (st.buffer_pos : ℤ)
    · rw [pushEvents, if_pos hg]
      refine ⟨rfl, rfl, by norm_num, by decide, by decide⟩
    · rw [pushEvents, if_neg hg]
      refine ⟨rfl, rfl, by norm_num, by decide, by decide⟩

/-! ## Claim C9: the probe-frame spectrum -/

theorem frame0_length : frame0.length = fft_size := by
  rw [frame0, List.length_map, List.length_range]

theorem windowed0_length : windowed0.length = fft_size := by
  rw [windowed0, List.length_zipWith, frame0_length, window_length, min_self]

theorem frame0_getD (n : ℕ) (h : n < fft_size) :
    frame0.getD n 0 = if n = 512 then 1 else if n = 1536 then 1 else 0 := by
  rw [frame0, getD_map_of_lt (List.range fft_size) _ n (by simpa using h) 0 0,
    List.getD_eq_getElem?_getD, List.getElem?_range h]
  rfl

theorem getD_zipWith_mul (a b : List ℝ) (n : ℕ) (ha : n < a.length) (hb : n < b.length) :
    (List.zipWith (fun x y => x * y) a b).getD n 0 = a.getD n 0 * b.getD n 0 := by
  rw [List.getD_eq_getElem?_getD, List.getElem?_zipWith',
    List.getElem?_eq_getElem ha, List.getElem?_eq_getElem hb,
    List.getD_eq_getElem?_getD, List.getElem?_eq_getElem ha,
    List.getD_eq_getElem?_getD, List.getElem?_eq_getElem hb]
  rfl

theorem windowed0_getD (n : ℕ) (h : n < fft_size) :
    windowed0.getD n 0 =
      if n = 512 then window.getD 512 0 else if n = 1536 then window.getD 1536 0 else 0 := by
  rw [windowed0, getD_zipWith_mul frame0 window n (by rw [frame0_length]; exact h)
    (by rw [window_length]; exact h), frame0_getD n h]
  by_cases h5 : n = 512
  · rw [if_pos h5, if_pos h5, one_mul, h5]
  · rw [if_neg h5, if_neg h5]
    by_cases h15 : n = 1536
    · rw [if_pos h15, if_pos h15, one_mul, h15]
    · rw [if_neg h15, if_neg h15, zero_mul]

theorem cexp_add (a b : ℝ) : cexp (a + b) = cexp a * cexp b := by
  rw [cexp, cexp, cexp, ← Complex.exp_add]
  congr 1
  push_cast
  ring

theorem abs_cexp (θ : ℝ) : Complex.abs (cexp θ) = 1 := Complex.abs_exp_ofReal_mul_I θ

theorem cexp_neg_pi_mul (k : ℕ) : cexp (-(Real.pi * k)) = ((-1 : ℂ)) ^ k := by
  rw [cexp]
  have harg : ((-(Real.pi * k) : ℝ) : ℂ) * Complex.I =
      ((-(k : ℤ) : ℤ) : ℂ) * ((Real.pi : ℂ) * Complex.I) := by
    push_cast
    ring
  rw [harg, Complex.exp_int_mul, Complex.exp_pi_mul_I]
  rw [zpow_neg, zpow_natCast]
  have hsq : ((-1 : ℂ)) ^ k * ((-1 : ℂ)) ^ k = 1 := by
    rw [← pow_add]
    have : ((-1 : ℂ)) ^ (k + k) = (((-1 : ℂ)) ^ 2) ^ k := by
      rw [← pow_mul]
      congr 1
      ring
    rw [this, neg_one_sq, one_pow]
  exact inv_eq_of_mul_eq_one_right hsq

theorem rfft_windowed0 (k : ℕ) :
    rfft windowed0 k =
      (window.getD 512 0 : ℂ) * cexp (-(2 * Real.pi * k * 512 / (fft_size : ℝ))) +
      (window.getD 1536 0 : ℂ) * cexp (-(2 * Real.pi * k * 1536 / (fft_size : ℝ))) := by
  rw [rfft, windowed0_length]
  have hterm : ∀ n ∈ Finset.range fft_size,
      ((windowed0.getD n 0 : ℝ) : ℂ) * cexp (-(2 * Real.pi * k * n / (fft_size : ℝ))) =
        (if n = 512 then
          (window.getD 512 0 : ℂ) * cexp (-(2 * Real.pi * k * n / (fft_size : ℝ))) else 0) +
        (if n = 1536 then
          (window.getD 1536 0 : ℂ) * cexp (-(2 * Real.pi * k * n / (fft_size : ℝ))) else 0) := by
    intro n hn
    rw [Finset.mem_range] at hn
    rw [windowed0_getD n hn]
    by_cases h5 : n = 512
    · rw [if_pos h5, if_pos h5, if_neg (by omega), add_zero]
    · rw [if_neg h5, if_neg h5]
      by_cases h15 : n = 1536
      · rw [if_pos h15, if_pos h15, zero_add]
      · rw [if_neg h15, if_neg h15, add_zero]
        simp
  rw [Finset.sum_congr rfl hterm, Finset.sum_add_distrib,
    Finset.sum_ite_eq' (Finset.range fft_size) 512
      (fun n => (window.getD 512 0 : ℂ) * cexp (-(2 * Real.pi * k * n / (fft_size : ℝ)))),
    Finset.sum_ite_eq' (Finset.range fft_size) 1536
      (fun n => (window.getD 1536 0 : ℂ) * cexp (-(2 * Real.pi * k * n / (fft_size : ℝ)))),
    if_pos (Finset.mem_range.mpr (by norm_num [fft_size])),
    if_pos (Finset.mem_range.mpr (by norm_num [fft_size]))]
  norm_num

theorem abs_rfft_windowed0 (k : ℕ) :
    Complex.abs (rfft windowed0 k) =
      |window.getD 512 0 + (-1 : ℝ) ^ k * window.getD 1536 0| := by
  have hfft : ((fft_size : ℕ) : ℝ) = 2048 := by norm_num [fft_size]
  have harg : (-(2 * Real.pi * k * 1536 / (fft_size : ℝ))) =
      (-(2 * Real.pi * k * 512 / (fft_size : ℝ))) + (-(Real.pi * k)) := by
    rw [hfft]
    ring
  rw [rfft_windowed0 k, harg, cexp_add, cexp_neg_pi_mul]
  have hfact : (window.getD 512 0 : ℂ) * cexp (-(2 * Real.pi * k * 512 / (fft_size : ℝ))) +
      (window.getD 1536 0 : ℂ) *
        (cexp (-(2 * Real.pi * k * 512 / (fft_size : ℝ))) * ((-1 : ℂ)) ^ k) =
      cexp (-(2 * Real.pi * k * 512 / (fft_size : ℝ))) *
        (((window.getD 512 0 + (-1 : ℝ) ^ k * window.getD 1536 0 : ℝ)) : ℂ) := by
    push_cast
    ring
  rw [hfact, map_mul, abs_cexp, one_mul, Complex.abs_ofReal]

theorem mag0_sq (k : ℕ) (hk : k < fft_size / 2 + 1) :
    ((magnitudeArr windowed0).getD k 0) ^ 2 =
      ((window.getD 512 0) ^ 2 + (window.getD 1536 0) ^ 2) / ((fft_size : ℝ)) ^ 2 +
      (2 * window.getD 512 0 * window.getD 1536 0 / ((fft_size : ℝ)) ^ 2) * (-1 : ℝ) ^ k := by
  have hk2 : k < windowed0.length / 2 + 1 := by rw [windowed0_length]; exact hk
  rw [magnitudeArr_getD _ k hk2, abs_rfft_windowed0 k, div_pow, sq_abs]
  have hc : ((-1 : ℝ) ^ k) ^ 2 = 1 := by
    rw [← pow_mul, mul_comm, pow_mul, neg_one_sq, one_pow]
  have hexp : (window.getD 512 0 + (-1 : ℝ) ^ k * window.getD 1536 0) ^ 2 =
      (window.getD 512 0) ^ 2 + (window.getD 1536 0) ^ 2 * ((-1 : ℝ) ^ k) ^ 2 +
        2 * window.getD 512 0 * window.getD 1536 0 * (-1 : ℝ) ^ k := by
    ring
  rw [hexp, hc, mul_one]
  ring

theorem sum_mag0_sq (N : ℕ) (hN : N ≤ fft_size / 2 + 1) :
    ∑ k ∈ Finset.range N, ((magnitudeArr windowed0).getD k 0) ^ 2 =
      (N : ℝ) * (((window.getD 512 0) ^ 2 + (window.getD 1536 0) ^ 2) / ((fft_size : ℝ)) ^ 2) +
      (2 * window.getD 512 0 * window.getD 1536 0 / ((fft_size : ℝ)) ^ 2) *
        (if Even N then 0 else 1) := by
  have hterm : ∀ k ∈ Finset.range N, ((magnitudeArr windowed0).getD k 0) ^ 2 =
      ((window.getD 512 0) ^ 2 + (window.getD 1536 0) ^ 2) / ((fft_size : ℝ)) ^ 2 +
      (2 * window.getD 512 0 * window.getD 1536 0 / ((fft_size : ℝ)) ^ 2) * (-1 : ℝ) ^ k := by
    intro k hk
    rw [Finset.mem_range] at hk
    exact mag0_sq k (by omega)
  rw [Finset.sum_congr rfl hterm, Finset.sum_add_distrib, Finset.sum_const, Finset.card_range,
    nsmul_eq_mul, ← Finset.mul_sum, neg_one_geom_sum]

theorem rms_full_sq :
    npMean ((magnitudeArr windowed0).map fun m => m ^ 2) =
      ((window.getD 512 0) ^ 2 + (window.getD 1536 0) ^ 2) / ((fft_size : ℝ)) ^ 2 +
      (2 * window.getD 512 0 * window.getD 1536 0 / ((fft_size : ℝ)) ^ 2) / 1025 := by
  have hlen : (magnitudeArr windowed0).length = 1025 := by
    rw [magnitudeArr_length, windowed0_length]
    norm_num [fft_size]
  rw [npMean, List.length_map, sum_map_getD _ _ 0, hlen,
    sum_mag0_sq 1025 (by norm_num [fft_size])]
  rw [if_neg (by decide : ¬ Even 1025)]
  push_cast
  field_simp
  ring

theorem rms_trunc_sq :
    npMean (((magnitudeArr windowed0).take (fft_size / 2)).map fun m => m ^ 2) =
      ((window.getD 512 0) ^ 2 + (window.getD 1536 0) ^ 2) / ((fft_size : ℝ)) ^ 2 := by
  have hhalf : fft_size / 2 = 1024 := by norm_num [fft_size]
  have hlen : ((magnitudeArr windowed0).take (fft_size / 2)).length = 1024 := by
    rw [List.length_take, magnitudeArr_length, windowed0_length, hhalf]
    norm_num [fft_size]
  rw [npMean, List.length_map, sum_map_getD _ _ 0, hlen]
  have hterm : ∀ i ∈ Finset.range 1024,
      (((magnitudeArr windowed0).take (fft_size / 2)).getD i 0) ^ 2 =
        ((magnitudeArr windowed0).getD i 0) ^ 2 := by
    intro i hi
    rw [Finset.mem_range] at hi
    rw [getD_take_of_lt _ _ _ (by omega)]
  rw [Finset.sum_congr rfl hterm, sum_mag0_sq 1024 (by norm_num [fft_size]),
    if_pos (by decide : Even 1024), mul_zero, add_zero]
  push_cast
  rw [mul_div_cancel_left₀ _ (by norm_num : (1024 : ℝ) ≠ 0)]

theorem window_getD (n : ℕ) (h : n < fft_size) :
    window.getD n 0 =
      1 / 2 - 1 / 2 * Real.cos (2 * Real.pi * (n : ℝ) / ((fft_size : ℝ) - 1)) := by
  rw [window, getD_map_of_lt (List.range fft_size) _ n (by simpa using h) 0 0,
    List.getD_eq_getElem?_getD, List.getElem?_range h]
  rfl

theorem window_pos (n : ℕ) (hn : 0 < n) (hlt : (n : ℝ) < (fft_size : ℝ) - 1)
    (hfn : n < fft_size) : 0 < window.getD n 0 := by
  rw [window_getD n hfn]
  have hπ := Real.pi_pos
  have hden : (0 : ℝ) < (fft_size : ℝ) - 1 := by norm_num [fft_size]
  have hnR : (0 : ℝ) < (n : ℝ) := by exact_mod_cast hn
  have hθpos : 0 < 2 * Real.pi * (n : ℝ) / ((fft_size : ℝ) - 1) := by
    apply div_pos
    · nlinarith
    · exact hden
  have hθlt : 2 * Real.pi * (n : ℝ) / ((fft_size : ℝ) - 1) < 2 * Real.pi := by
    rw [div_lt_iff hden]
    nlinarith
  have hle := Real.cos_le_one (2 * Real.pi * (n : ℝ) / ((fft_size : ℝ) - 1))
  rcases eq_or_lt_of_le hle with he | hltc
  · exfalso
    rw [Real.cos_eq_one_iff_of_lt_of_lt (by linarith) hθlt] at he
    rw [he] at hθpos
    exact lt_irrefl _ hθpos
  · linarith

/-- C9, counterexample.  On the two-impulse probe frame the published RMS
differs from `sqrt(mean(magnitude²))` taken over the snapshot's truncated
`fft_size / 2`-long magnitude array: the code computes the mean over the
full `fft_size / 2 + 1`-bin array of `np.fft.rfft` — the Nyquist bin is
included — and for this frame that strictly raises the mean. -/
theorem C9_counterexample : (publishOn initState frame0).rms ≠ specRms frame0 := by
  have hA : 0 < window.getD 512 0 :=
    window_pos 512 (by norm_num) (by norm_num [fft_size]) (by norm_num [fft_size])
  have hB : 0 < window.getD 1536 0 :=
    window_pos 1536 (by norm_num) (by norm_num [fft_size]) (by norm_num [fft_size])
  have hfft2 : (0 : ℝ) < ((fft_size : ℝ)) ^ 2 := by norm_num [fft_size]
  have hrms : (publishOn initState frame0).rms =
      Real.sqrt (npMean ((magnitudeArr windowed0).map fun m => m ^ 2)) := by
    simp only [publishOn, analyzeSnap, frameSnapshot, snapshotOf, windowed0]
  have hspec : specRms frame0 =
      Real.sqrt (npMean (((magnitudeArr windowed0).take (fft_size / 2)).map
        fun m => m ^ 2)) := by
    simp only [specRms, frameSnapshot, snapshotOf, windowed0]
  rw [hrms, hspec]
  apply ne_of_gt
  apply Real.sqrt_lt_sqrt
  · rw [rms_trunc_sq]
    apply div_nonneg
    · nlinarith [sq_nonneg (window.getD 512 0), sq_nonneg (window.getD 1536 0)]
    · exact le_of_lt hfft2
  · rw [rms_trunc_sq, rms_full_sq]
    have hD : 0 < 2 * window.getD 512 0 * window.getD 1536 0 / ((fft_size : ℝ)) ^ 2 / 1025 := by
      apply div_pos
      · apply div_pos
        · nlinarith
        · exact hfft2
      · norm_num
    linarith

/-- C9, amended.  The snapshot pipeline is deterministic and side-effect
free — the published RMS and peak depend only on the frame, not on the
history state — with `RMS = sqrt(mean(magnitude²))` and
`peak = max(magnitude)`; but both range over the *full* rfft magnitude
array of length `fft_size / 2 + 1` (Nyquist bin included), not over the
`fft_size / 2`-long truncated array that the snapshot stores in the
smoothing history. -/
theorem C9_rms_peak_untruncated (chunk : List ℝ) (hlen : chunk.length = fft_size)
    (st st2 : Analyzer) :
    (publishOn st chunk).rms =
      Real.sqrt (npMean ((frameSnapshot chunk).magnitude.map fun m => m ^ 2)) ∧
    (publishOn st chunk).peak = npMax (frameSnapshot chunk).magnitude ∧
    (frameSnapshot chunk).magnitude.length = fft_size / 2 + 1 ∧
    ((frameSnapshot chunk).magnitude.take (fft_size / 2)).length = fft_size / 2 ∧
    (publishOn st chunk).rms = (publishOn st2 chunk).rms ∧
    (publishOn st chunk).peak = (publishOn st2 chunk).peak := by
  have hmlen : (frameSnapshot chunk).magnitude.length = fft_size / 2 + 1 := by
    show (magnitudeArr (List.zipWith (fun x y => x * y) chunk window)).length = _
    rw [magnitudeArr_length, List.length_zipWith, hlen, window_length, min_self]
  refine ⟨rfl, rfl, hmlen, ?_, rfl, rfl⟩
  rw [List.length_take, hmlen]
  omega

/-- C9 witness: the silent frame in two different history states. -/
theorem C9_rms_peak_untruncated_witness :
    zeroChunk.length = fft_size ∧
    (frameSnapshot zeroChunk).magnitude.length = fft_size / 2 + 1 ∧
    (publishOn initState zeroChunk).rms =
      (publishOn { initState with current_pos := 1 } zeroChunk).rms :=
  ⟨by simp only [zeroChunk, List.length_replicate],
    (C9_rms_peak_untruncated zeroChunk (by simp only [zeroChunk, List.length_replicate])
      initState { initState with current_pos := 1 }).2.2.1,
    (C9_rms_peak_untruncated zeroChunk (by simp only [zeroChunk, List.length_replicate])
      initState { initState with current_pos := 1 }).2.2.2.2.1⟩

/-- C10 witness: a state holding one full frame, and a 1-sample push. -/
theorem C10_lock_held_through_analysis_witness :
    fft_size ≤ ({ initState with buffer_pos := 2048 } : Analyzer).buffer_pos ∧
    (runCycleEvents { initState with buffer_pos := 2048 } =
        [Event.lock, Event.copyOut, Event.computeFFT, Event.recordHistory,
          Event.publish, Event.unlock, Event.sleep] ∧
      eventIdx (runCycleEvents { initState with buffer_pos := 2048 }) Event.computeFFT <
        eventIdx (runCycleEvents { initState with buffer_pos := 2048 }) Event.unlock ∧
      eventIdx (runCycleEvents { initState with buffer_pos := 2048 }) Event.recordHistory <
        eventIdx (runCycleEvents { initState with buffer_pos := 2048 }) Event.unlock ∧
      eventIdx (runCycleEvents { initState with buffer_pos := 2048 }) Event.publish <
        eventIdx (runCycleEvents { initState with buffer_pos := 2048 }) Event.unlock) ∧
    ((pushEvents { initState with buffer_pos := 2048 } [0]).head? = some Event.lock ∧
      (pushEvents { initState with buffer_pos := 2048 } [0]).getLast? = some Event.unlock ∧
      (pushEvents { initState with buffer_pos := 2048 } [0]).length ≤ 3 ∧
      Event.computeFFT ∉ pushEvents { initState with buffer_pos := 2048 } [0] ∧
      Event.publish ∉ pushEvents { initState with buffer_pos := 2048 } [0]) :=
  ⟨by norm_num [fft_size],
    (C10_lock_held_through_analysis { initState with buffer_pos := 2048 } [0]).1
      (by norm_num [fft_size]),
    (C10_lock_held_through_analysis { initState with buffer_pos := 2048 } [0]).2.2⟩

end UMP
